import Mathlib

/-!
Verification of the PowerPulse hybrid energy disaggregation and phantom-load
detection engine, shallowly embedded from the Python sources
`ml-service/logic_detection.py`, `ml-service/logic_stats.py` and
`ml-service/logic_training.py`.  Floats are modelled as rationals; Python's
`round(x, n)` is modelled as round-half-up at `n` decimal places.
-/

namespace PowerPulse

/-! ## Rounding (model of Python `round(x, n)`) -/

/-- Round a rational to `n` decimal places (half away from zero is modelled as
half up; the claims under study never sit on a half boundary). -/
def roundTo (n : ℕ) (q : ℚ) : ℚ := ((⌊q * (10 : ℚ) ^ n + 1 / 2⌋ : ℤ) : ℚ) / (10 : ℚ) ^ n

theorem roundTo_mono (n : ℕ) {q r : ℚ} (h : q ≤ r) : roundTo n q ≤ roundTo n r := by
  have hp : (0 : ℚ) < (10 : ℚ) ^ n := by positivity
  have hf : (⌊q * (10 : ℚ) ^ n + 1 / 2⌋ : ℤ) ≤ ⌊r * (10 : ℚ) ^ n + 1 / 2⌋ := by
    apply Int.floor_mono
    have := mul_le_mul_of_nonneg_right h hp.le
    linarith
  exact div_le_div_of_nonneg_right (by exact_mod_cast hf) hp.le

theorem abs_roundTo_sub (n : ℕ) (q : ℚ) :
    |roundTo n q - q| ≤ 1 / (2 * (10 : ℚ) ^ n) := by
  have hp : (0 : ℚ) < (10 : ℚ) ^ n := by positivity
  set m : ℚ := q * (10 : ℚ) ^ n with hm
  have h1 : (⌊m + 1 / 2⌋ : ℚ) ≤ m + 1 / 2 := Int.floor_le _
  have h2 : m + 1 / 2 - 1 < (⌊m + 1 / 2⌋ : ℚ) := Int.sub_one_lt_floor _
  have habs : |(⌊m + 1 / 2⌋ : ℚ) - m| ≤ 1 / 2 := by
    rw [abs_le]; constructor <;> linarith
  have hq : q = m / (10 : ℚ) ^ n := by rw [hm]; field_simp
  have : |roundTo n q - q| = |(⌊m + 1 / 2⌋ : ℚ) - m| / (10 : ℚ) ^ n := by
    calc |roundTo n q - q| = |((⌊m + 1 / 2⌋ : ℚ) - m) / (10 : ℚ) ^ n| := by
          rw [roundTo, ← hm]
          nth_rewrite 1 [hq]
          congr 1
          ring
      _ = |(⌊m + 1 / 2⌋ : ℚ) - m| / (10 : ℚ) ^ n := by rw [abs_div, abs_of_pos hp]
  rw [this]
  rw [div_le_div_iff₀ hp (by positivity)]
  calc |(⌊m + 1 / 2⌋ : ℚ) - m| * (2 * (10 : ℚ) ^ n)
      ≤ (1 / 2) * (2 * (10 : ℚ) ^ n) := by
        apply mul_le_mul_of_nonneg_right habs; positivity
    _ = 1 * (10 : ℚ) ^ n := by ring

/-! ## Appliance profiles and the profile store

`ApplianceProfile` models one entry of `appliance_profiles.json`; the store is
the label-to-profile mapping produced by `logic_training.py` and loaded by
`load_profiles` (a missing or unreadable file loads as the empty store). -/

structure ApplianceProfile where
  phantom_power_watts : ℚ
  active_threshold_watts : ℚ
  always_on : Bool
deriving DecidableEq, Repr

/-- The profile store: an association list keyed by appliance label (JSON
object keys are unique, lookup takes the first match). -/
abbrev ProfileStore := List (String × ApplianceProfile)

def lookupProfile (store : ProfileStore) (label : String) : Option ApplianceProfile :=
  (store.find? fun e => e.1 == label).map Prod.snd

/-- One item of the user inventory: a dict that may carry a `type` key and/or
a `name` key (`item.get('type', item.get('name', ''))`). -/
structure InventoryItem where
  type? : Option String
  name? : Option String
deriving DecidableEq, Repr

def appTypeOf (item : InventoryItem) : String := item.type?.getD (item.name?.getD "")

/-! ## Phantom-source detection (`logic_detection.py`, `detect_phantom_sources`) -/

/-- The candidate `(label, phantom_power)` pairs: inventory items whose label
resolves in the store to a profile with phantom power above 0.5 W. -/
def candidatePowers (store : ProfileStore) (inventory : List InventoryItem) :
    List (String × ℚ) :=
  inventory.filterMap fun item =>
    let appType := appTypeOf item
    match lookupProfile store appType with
    | some p => if p.phantom_power_watts > 1 / 2 then some (appType, p.phantom_power_watts) else none
    | none => none

/-- `itertools.combinations`: all sublists of `l` of length `r`, in
lexicographic order of positions. -/
def combinations {α : Type _} : ℕ → List α → List (List α)
  | 0, _ => [[]]
  | _ + 1, [] => []
  | r + 1, x :: xs => ((combinations r xs).map (x :: ·)) ++ combinations (r + 1) xs

/-- The enumeration order of the detector's search: subset sizes 1..N, and
within one size the order `itertools.combinations` yields. -/
def allCombos {α : Type _} (l : List α) : List (List α) :=
  (List.range l.length).flatMap fun r => combinations (r + 1) l

/-- Summed phantom power of one combination. -/
def comboSum (c : List (String × ℚ)) : ℚ := (c.map Prod.snd).sum

/-- One step of the detector's `diff < best_diff` tracking loop. -/
def pickBetter {α : Type _} (f : α → ℚ) (acc : Option (ℚ × α)) (x : α) : Option (ℚ × α) :=
  match acc with
  | none => some (f x, x)
  | some (d, b) => if f x < d then some (f x, x) else some (d, b)

/-- Fold the tracking loop over a list; `none` plays the role of the initial
`best_diff = inf`. -/
def firstMinBy {α : Type _} (f : α → ℚ) (l : List α) : Option (ℚ × α) :=
  l.foldl (pickBetter f) none

/-- The subset search of `detect_phantom_sources`: best (diff, combination)
over the enumeration, first strict improvement wins. -/
def searchBest (mains : ℚ) (subsets : List (List (String × ℚ))) :
    Option (ℚ × List (String × ℚ)) :=
  firstMinBy (fun c => |mains - comboSum c|) subsets

structure DetectionResult where
  input_reading_watts : ℚ
  detected_appliances : List String
  total_phantom_watts : ℚ
  error_margin : ℚ
  is_valid_detection : Bool
deriving DecidableEq, Repr

/-- `error_percent = best_diff / mains * 100 if mains > 0 else 100`. -/
def errorPercent (mains bestDiff : ℚ) : ℚ :=
  if 0 < mains then bestDiff / mains * 100 else 100

/-- `detect_phantom_sources` from `logic_detection.py`, with the loaded
profile store passed explicitly (an absent file loads as `[]`). -/
def detect_phantom_sources (store : ProfileStore) (mains : ℚ)
    (inventory : List InventoryItem) : DetectionResult :=
  if store.isEmpty then
    { input_reading_watts := mains
      detected_appliances := []
      total_phantom_watts := 0
      error_margin := 0
      is_valid_detection := false }
  else
    let cands := candidatePowers store inventory
    if cands = [] then
      { input_reading_watts := mains
        detected_appliances := []
        total_phantom_watts := 0
        error_margin := mains
        is_valid_detection := false }
    else
      match searchBest mains (allCombos cands) with
      | none =>
          -- the `best_diff == inf` fallback: best_diff := mains, no combination
          { input_reading_watts := mains
            detected_appliances := []
            total_phantom_watts := roundTo 2 0
            error_margin := roundTo 2 mains
            is_valid_detection := decide (errorPercent mains mains ≤ 30) && decide ((0 : ℕ) < 0) }
      | some (d, combo) =>
          { input_reading_watts := mains
            detected_appliances := combo.map Prod.fst
            total_phantom_watts := roundTo 2 (comboSum combo)
            error_margin := roundTo 2 d
            is_valid_detection :=
              decide (errorPercent mains d ≤ 30) && decide (0 < (combo.map Prod.fst).length) }

/-- The full-precision best difference the detector computes internally before
rounding (per branch of `detect_phantom_sources`). -/
def bestDiffOf (store : ProfileStore) (mains : ℚ) (inventory : List InventoryItem) : ℚ :=
  if store.isEmpty then 0
  else
    let cands := candidatePowers store inventory
    if cands = [] then mains
    else
      match searchBest mains (allCombos cands) with
      | none => mains
      | some (d, _) => d

/-! ## Properties of the subset enumeration -/

theorem length_of_mem_combinations {α : Type _} :
    ∀ (r : ℕ) (l : List α) (s : List α), s ∈ combinations r l → s.length = r := by
  intro r l
  induction l generalizing r with
  | nil =>
    intro s hs
    cases r with
    | zero => simp [combinations] at hs; simp [hs]
    | succ r => simp [combinations] at hs
  | cons x xs ih =>
    intro s hs
    cases r with
    | zero => simp [combinations] at hs; simp [hs]
    | succ r =>
      simp only [combinations, List.mem_append, List.mem_map] at hs
      rcases hs with ⟨t, ht, rfl⟩ | hs
      · simp [ih r t ht]
      · exact ih (r + 1) s hs

theorem mem_combinations_iff {α : Type _} :
    ∀ (r : ℕ) (l : List α) (s : List α),
      s ∈ combinations r l ↔ s.Sublist l ∧ s.length = r := by
  intro r l
  induction l generalizing r with
  | nil =>
    intro s
    cases r with
    | zero =>
      simp only [combinations, List.mem_singleton]
      constructor
      · rintro rfl; exact ⟨List.Sublist.refl _, rfl⟩
      · rintro ⟨hs, _⟩; exact List.sublist_nil.mp hs
    | succ r =>
      simp only [combinations, List.not_mem_nil, false_iff, not_and]
      intro hs
      rw [List.sublist_nil.mp hs]
      simp
  | cons x xs ih =>
    intro s
    cases r with
    | zero =>
      simp only [combinations, List.mem_singleton]
      constructor
      · rintro rfl; exact ⟨List.nil_sublist _, rfl⟩
      · rintro ⟨_, hlen⟩; exact List.length_eq_zero.mp hlen
    | succ r =>
      simp only [combinations, List.mem_append, List.mem_map]
      constructor
      · rintro (⟨t, ht, rfl⟩ | hs)
        · rcases (ih r t).mp ht with ⟨hsub, hlen⟩
          exact ⟨List.cons_sublist_cons.mpr hsub, by simp [hlen]⟩
        · rcases (ih (r + 1) s).mp hs with ⟨hsub, hlen⟩
          exact ⟨hsub.trans (List.sublist_cons_self x xs), hlen⟩
      · rintro ⟨hsub, hlen⟩
        rcases List.sublist_cons_iff.mp hsub with hs | ⟨t, rfl, ht⟩
        · exact Or.inr ((ih (r + 1) s).mpr ⟨hs, hlen⟩)
        · exact Or.inl ⟨t, (ih r t).mpr ⟨ht, by simpa using hlen⟩, rfl⟩

theorem mem_allCombos_iff {α : Type _} (l : List α) (s : List α) :
    s ∈ allCombos l ↔ s.Sublist l ∧ s ≠ [] := by
  simp only [allCombos, List.mem_flatMap, List.mem_range]
  constructor
  · rintro ⟨r, _, hs⟩
    rcases (mem_combinations_iff (r + 1) l s).mp hs with ⟨hsub, hlen⟩
    refine ⟨hsub, ?_⟩
    intro hnil
    rw [hnil] at hlen
    simp at hlen
  · rintro ⟨hsub, hne⟩
    have hpos : 0 < s.length := List.length_pos.mpr hne
    refine ⟨s.length - 1, ?_, ?_⟩
    · have := hsub.length_le
      omega
    · apply (mem_combinations_iff _ l s).mpr
      exact ⟨hsub, by omega⟩

/-- In the enumeration, subsets are listed by (weakly) increasing size. -/
theorem allCombos_length_sorted {α : Type _} (l : List α) :
    (allCombos l).Pairwise (fun s t => s.length ≤ t.length) := by
  rw [allCombos, List.flatMap_eq_foldl]
  rw [← List.flatMap_eq_foldl]
  rw [List.flatMap, List.pairwise_flatten]
  constructor
  · intro c hc
    simp only [List.mem_map, List.mem_range] at hc
    rcases hc with ⟨r, _, rfl⟩
    apply List.pairwise_of_forall_mem_list
    intro a ha b hb
    rw [length_of_mem_combinations (r + 1) l a ha,
      length_of_mem_combinations (r + 1) l b hb]
  · rw [List.pairwise_map]
    apply List.Pairwise.imp_of_mem ?_ (List.pairwise_lt_range l.length)
    intro r₁ r₂ _ _ hlt
    intro a ha b hb
    rw [length_of_mem_combinations (r₁ + 1) l a ha,
      length_of_mem_combinations (r₂ + 1) l b hb]
    omega

/-! ## Properties of the tracking loop -/

theorem foldl_pickBetter_spec {α : Type _} (f : α → ℚ) :
    ∀ (l : List α) (d₀ : ℚ) (b₀ : α),
      (l.foldl (pickBetter f) (some (d₀, b₀)) = some (d₀, b₀) ∧ ∀ x ∈ l, d₀ ≤ f x) ∨
      (∃ d b l₁ l₂, l.foldl (pickBetter f) (some (d₀, b₀)) = some (d, b) ∧
        l = l₁ ++ b :: l₂ ∧ d = f b ∧ d < d₀ ∧
        (∀ x ∈ l₁, d < f x) ∧ (∀ x ∈ l₂, d ≤ f x)) := by
  intro l
  induction l with
  | nil => intro d₀ b₀; left; exact ⟨rfl, by simp⟩
  | cons x xs ih =>
    intro d₀ b₀
    by_cases hx : f x < d₀
    · have hstep : (x :: xs).foldl (pickBetter f) (some (d₀, b₀)) =
          xs.foldl (pickBetter f) (some (f x, x)) := by
        simp [List.foldl_cons, pickBetter, hx]
      rcases ih (f x) x with ⟨heq, hall⟩ | ⟨d, b, l₁, l₂, heq, hsplit, hd, hlt, hbefore, hafter⟩
      · right
        exact ⟨f x, x, [], xs, by rw [hstep, heq], rfl, rfl, hx, by simp, hall⟩
      · right
        refine ⟨d, b, x :: l₁, l₂, by rw [hstep, heq], by simp [hsplit], hd, hlt.trans hx, ?_, hafter⟩
        intro y hy
        rcases List.mem_cons.mp hy with rfl | hy
        · exact hlt
        · exact hbefore y hy
    · have hstep : (x :: xs).foldl (pickBetter f) (some (d₀, b₀)) =
          xs.foldl (pickBetter f) (some (d₀, b₀)) := by
        simp [List.foldl_cons, pickBetter, hx]
      push_neg at hx
      rcases ih d₀ b₀ with ⟨heq, hall⟩ | ⟨d, b, l₁, l₂, heq, hsplit, hd, hlt, hbefore, hafter⟩
      · left
        refine ⟨by rw [hstep, heq], ?_⟩
        intro y hy
        rcases List.mem_cons.mp hy with rfl | hy
        · exact hx
        · exact hall y hy
      · right
        refine ⟨d, b, x :: l₁, l₂, by rw [hstep, heq], by simp [hsplit], hd, hlt, ?_, hafter⟩
        intro y hy
        rcases List.mem_cons.mp hy with rfl | hy
        · exact lt_of_lt_of_le hlt hx
        · exact hbefore y hy

/-- The tracking loop on a non-empty list returns the first minimiser:
everything listed before it is strictly worse, everything after is no
better. -/
theorem firstMinBy_spec {α : Type _} (f : α → ℚ) (l : List α) (hne : l ≠ []) :
    ∃ d b l₁ l₂, firstMinBy f l = some (d, b) ∧ d = f b ∧ l = l₁ ++ b :: l₂ ∧
      (∀ x ∈ l₁, d < f x) ∧ (∀ x ∈ l₂, d ≤ f x) := by
  match l, hne with
  | x :: xs, _ =>
    have hstep : firstMinBy f (x :: xs) = xs.foldl (pickBetter f) (some (f x, x)) := by
      simp [firstMinBy, List.foldl_cons, pickBetter]
    rcases foldl_pickBetter_spec f xs (f x) x with ⟨heq, hall⟩ |
        ⟨d, b, l₁, l₂, heq, hsplit, hd, hlt, hbefore, hafter⟩
    · exact ⟨f x, x, [], xs, by rw [hstep, heq], rfl, rfl, by simp, hall⟩
    · refine ⟨d, b, x :: l₁, l₂, by rw [hstep, heq], hd, by simp [hsplit], ?_, hafter⟩
      intro y hy
      rcases List.mem_cons.mp hy with rfl | hy
      · exact hlt
      · exact hbefore y hy

/-- Minimality over the whole list, from the split form. -/
theorem firstMinBy_min {α : Type _} {f : α → ℚ} {l l₁ l₂ : List α} {d : ℚ} {b : α}
    (hd : d = f b) (hsplit : l = l₁ ++ b :: l₂)
    (hbefore : ∀ x ∈ l₁, d < f x) (hafter : ∀ x ∈ l₂, d ≤ f x) :
    ∀ x ∈ l, d ≤ f x := by
  intro x hx
  rw [hsplit] at hx
  rcases List.mem_append.mp hx with hx | hx
  · exact (hbefore x hx).le
  · rcases List.mem_cons.mp hx with rfl | hx
    · exact le_of_eq hd
    · exact hafter x hx

/-! ## Detector helper lemmas -/

theorem candidatePowers_empty_store (inventory : List InventoryItem) :
    candidatePowers [] inventory = [] := by
  simp [candidatePowers, lookupProfile]

theorem candidatePowers_mem_pos {store : ProfileStore} {inventory : List InventoryItem}
    {p : String × ℚ} (hp : p ∈ candidatePowers store inventory) : 1 / 2 < p.2 := by
  rcases List.mem_filterMap.mp hp with ⟨item, _, heq⟩
  simp only at heq
  cases hlook : lookupProfile store (appTypeOf item) with
  | none => rw [hlook] at heq; simp at heq
  | some pr =>
    rw [hlook] at heq
    dsimp only at heq
    split_ifs at heq with hgt
    cases heq
    exact hgt

theorem comboSum_pos {c : List (String × ℚ)} (hne : c ≠ [])
    (hall : ∀ p ∈ c, 1 / 2 < p.2) : 0 < comboSum c := by
  match c, hne with
  | p :: rest, _ =>
    have hp : (0 : ℚ) < p.2 := lt_trans (by norm_num) (hall p (List.mem_cons_self p rest))
    have hrest : 0 ≤ (rest.map Prod.snd).sum := by
      apply List.sum_nonneg
      intro q hq
      rcases List.mem_map.mp hq with ⟨r, hr, rfl⟩
      exact (lt_trans (by norm_num) (hall r (List.mem_cons_of_mem p hr))).le
    simp only [comboSum, List.map_cons, List.sum_cons]
    linarith

theorem allCombos_ne_nil {α : Type _} {l : List α} (hne : l ≠ []) : allCombos l ≠ [] := by
  match l, hne with
  | x :: xs, _ =>
    apply List.ne_nil_of_mem (a := [x])
    rw [mem_allCombos_iff]
    exact ⟨by simp, by simp⟩

theorem store_ne_nil_of_candidates {store : ProfileStore} {inventory : List InventoryItem}
    (hc : candidatePowers store inventory ≠ []) : store.isEmpty = false := by
  cases store with
  | nil => exact absurd (candidatePowers_empty_store inventory) hc
  | cons s rest => rfl

/-- Unfolding of `detect_phantom_sources` on the search branch. -/
theorem detect_eq_of_search {store : ProfileStore} {mains : ℚ}
    {inventory : List InventoryItem} (hc : candidatePowers store inventory ≠ [])
    {d : ℚ} {b : List (String × ℚ)}
    (hs : searchBest mains (allCombos (candidatePowers store inventory)) = some (d, b)) :
    detect_phantom_sources store mains inventory =
      { input_reading_watts := mains
        detected_appliances := b.map Prod.fst
        total_phantom_watts := roundTo 2 (comboSum b)
        error_margin := roundTo 2 d
        is_valid_detection :=
          decide (errorPercent mains d ≤ 30) && decide (0 < (b.map Prod.fst).length) } := by
  rw [detect_phantom_sources]
  rw [if_neg (by simp [store_ne_nil_of_candidates hc])]
  simp only [if_neg hc, hs]

/-- The detector's search result on a non-empty candidate list: the first
minimiser of the enumeration, with its split into strictly-worse prefix and
no-better suffix. -/
theorem searchBest_spec (mains : ℚ) {cands : List (String × ℚ)} (hc : cands ≠ []) :
    ∃ d b pre post, searchBest mains (allCombos cands) = some (d, b) ∧
      d = |mains - comboSum b| ∧ allCombos cands = pre ++ b :: post ∧
      (∀ s ∈ pre, d < |mains - comboSum s|) ∧ (∀ s ∈ post, d ≤ |mains - comboSum s|) := by
  rcases firstMinBy_spec (fun c => |mains - comboSum c|) (allCombos cands)
      (allCombos_ne_nil hc) with ⟨d, b, pre, post, heq, hd, hsplit, hbefore, hafter⟩
  exact ⟨d, b, pre, post, heq, hd, hsplit, hbefore, hafter⟩

/-! ## Claim theorems for the detector -/

/-- C1: on any mains reading and inventory with a non-empty candidate list,
the detector's `total_phantom_watts` is, before 2-decimal rounding, the summed
phantom power of some non-empty subset of the candidates, no non-empty subset
has a strictly smaller absolute difference from the mains reading, and
`error_margin` is that minimal difference (rounded to 2 decimals). -/
theorem detect_subset_search_optimal (store : ProfileStore) (mains : ℚ)
    (inventory : List InventoryItem) (hc : candidatePowers store inventory ≠ []) :
    ∃ s : List (String × ℚ), s.Sublist (candidatePowers store inventory) ∧ s ≠ [] ∧
      (detect_phantom_sources store mains inventory).total_phantom_watts =
        roundTo 2 (comboSum s) ∧
      (detect_phantom_sources store mains inventory).error_margin =
        roundTo 2 |mains - comboSum s| ∧
      ∀ t : List (String × ℚ), t.Sublist (candidatePowers store inventory) → t ≠ [] →
        |mains - comboSum s| ≤ |mains - comboSum t| := by
  rcases searchBest_spec mains hc with ⟨d, b, pre, post, heq, hd, hsplit, hbefore, hafter⟩
  have hb_mem : b ∈ allCombos (candidatePowers store inventory) := by
    rw [hsplit]
    exact List.mem_append_right _ (List.mem_cons_self _ _)
  rcases (mem_allCombos_iff _ b).mp hb_mem with ⟨hsub, hne⟩
  refine ⟨b, hsub, hne, ?_, ?_, ?_⟩
  · rw [detect_eq_of_search hc heq]
  · rw [detect_eq_of_search hc heq, hd]
  · intro t htsub htne
    have ht_mem : t ∈ allCombos (candidatePowers store inventory) :=
      (mem_allCombos_iff _ t).mpr ⟨htsub, htne⟩
    have hmin := firstMinBy_min (f := fun c => |mains - comboSum c|) hd hsplit
      hbefore hafter t ht_mem
    rw [hd] at hmin
    exact hmin

/-- C6: ties are broken by enumeration order — the winning subset is the first
minimiser of the enumeration (everything earlier is strictly worse), the
enumeration lists subsets by increasing size, so on an exact tie no strictly
smaller subset can also be a minimiser: the winner's size is minimal among all
tied subsets. -/
theorem detect_tie_break_first_found (store : ProfileStore) (mains : ℚ)
    (inventory : List InventoryItem) (hc : candidatePowers store inventory ≠ []) :
    ∃ d b pre post,
      searchBest mains (allCombos (candidatePowers store inventory)) = some (d, b) ∧
      (detect_phantom_sources store mains inventory).detected_appliances = b.map Prod.fst ∧
      d = |mains - comboSum b| ∧
      allCombos (candidatePowers store inventory) = pre ++ b :: post ∧
      (∀ s ∈ pre, d < |mains - comboSum s|) ∧
      (∀ s ∈ post, d ≤ |mains - comboSum s|) ∧
      (∀ t : List (String × ℚ), t.Sublist (candidatePowers store inventory) → t ≠ [] →
        |mains - comboSum t| = d → b.length ≤ t.length) := by
  rcases searchBest_spec mains hc with ⟨d, b, pre, post, heq, hd, hsplit, hbefore, hafter⟩
  refine ⟨d, b, pre, post, heq, ?_, hd, hsplit, hbefore, hafter, ?_⟩
  · rw [detect_eq_of_search hc heq]
  · intro t htsub htne htie
    have ht_mem : t ∈ allCombos (candidatePowers store inventory) :=
      (mem_allCombos_iff _ t).mpr ⟨htsub, htne⟩
    rw [hsplit] at ht_mem
    have hsorted := allCombos_length_sorted (candidatePowers store inventory)
    rw [hsplit] at hsorted
    rcases List.mem_append.mp ht_mem with ht_pre | ht_rest
    · exact absurd htie (ne_of_gt (hbefore t ht_pre))
    · rcases List.mem_cons.mp ht_rest with rfl | ht_post
      · exact le_refl _
      · have hpost_le := (List.pairwise_cons.mp (List.pairwise_append.mp hsorted).2.1).1
        exact hpost_le t ht_post

/-- C10: whenever at least one candidate qualifies, the search returns a
subset (the `best_diff == inf` fallback is unreachable), the detected list is
non-empty, and the total phantom power is strictly positive before rounding. -/
theorem detect_nonempty_of_candidates (store : ProfileStore) (mains : ℚ)
    (inventory : List InventoryItem) (hc : candidatePowers store inventory ≠ []) :
    searchBest mains (allCombos (candidatePowers store inventory)) ≠ none ∧
    (detect_phantom_sources store mains inventory).detected_appliances ≠ [] ∧
    ∃ d b, searchBest mains (allCombos (candidatePowers store inventory)) = some (d, b) ∧
      0 < comboSum b ∧
      (detect_phantom_sources store mains inventory).total_phantom_watts =
        roundTo 2 (comboSum b) := by
  rcases searchBest_spec mains hc with ⟨d, b, pre, post, heq, hd, hsplit, hbefore, hafter⟩
  have hb_mem : b ∈ allCombos (candidatePowers store inventory) := by
    rw [hsplit]
    exact List.mem_append_right _ (List.mem_cons_self _ _)
  rcases (mem_allCombos_iff _ b).mp hb_mem with ⟨hsub, hne⟩
  have hpos : 0 < comboSum b :=
    comboSum_pos hne fun p hp => candidatePowers_mem_pos (hsub.mem hp)
  refine ⟨by rw [heq]; simp, ?_, d, b, heq, hpos, ?_⟩
  · rw [detect_eq_of_search hc heq]
    simpa using hne
  · rw [detect_eq_of_search hc heq]

/-- C5: `is_valid_detection` is true exactly when the selected subset is
non-empty and `error_percent ≤ 30`, where `error_percent` is
`best_diff / mains * 100` for `mains > 0` and `100` for `mains = 0`; in
particular every detection with `mains = 0` is invalid. -/
theorem detect_validity_threshold (store : ProfileStore) (mains : ℚ)
    (inventory : List InventoryItem) :
    ((detect_phantom_sources store mains inventory).is_valid_detection = true ↔
      ((detect_phantom_sources store mains inventory).detected_appliances ≠ [] ∧
        errorPercent mains (bestDiffOf store mains inventory) ≤ 30)) ∧
    (mains = 0 → (detect_phantom_sources store mains inventory).is_valid_detection = false) := by
  by_cases hstore : store.isEmpty
  · simp [detect_phantom_sources, bestDiffOf, hstore]
  · by_cases hcand : candidatePowers store inventory = []
    · simp [detect_phantom_sources, bestDiffOf, hstore, hcand]
    · cases hsearch : searchBest mains (allCombos (candidatePowers store inventory)) with
      | none =>
        simp [detect_phantom_sources, bestDiffOf, hstore, hcand, hsearch]
      | some pair =>
        obtain ⟨d, b⟩ := pair
        rw [detect_eq_of_search hcand hsearch]
        have hbest : bestDiffOf store mains inventory = d := by
          simp [bestDiffOf, hstore, hcand, hsearch]
        rw [hbest]
        constructor
        · simp only [Bool.and_eq_true, decide_eq_true_eq]
          rw [and_comm]
          simp [List.length_pos, List.map_eq_nil_iff]
        · intro h0
          have hep : errorPercent mains d = 100 := by
            rw [errorPercent, if_neg]
            rw [h0]
            exact lt_irrefl 0
          simp [hep]
          intro h
          norm_num at h

/-- C7: with an empty (or unavailable) profile store the detector returns the
all-zero degraded result; with a non-empty store but no qualifying candidate
it returns empty detections with `error_margin = mains_reading`; both are
normal returns of the total function. -/
theorem detect_degraded_empty_cases (mains : ℚ) (inventory : List InventoryItem) :
    (detect_phantom_sources [] mains inventory =
      { input_reading_watts := mains
        detected_appliances := []
        total_phantom_watts := 0
        error_margin := 0
        is_valid_detection := false }) ∧
    (∀ store : ProfileStore, store ≠ [] → candidatePowers store inventory = [] →
      detect_phantom_sources store mains inventory =
        { input_reading_watts := mains
          detected_appliances := []
          total_phantom_watts := 0
          error_margin := mains
          is_valid_detection := false }) := by
  constructor
  · simp [detect_phantom_sources]
  · intro store hne hcand
    rw [detect_phantom_sources]
    rw [if_neg (by simp [hne])]
    simp only [hcand, if_pos]

/-! ## Profiler (`logic_training.py`, `train_appliance_models`)

The per-appliance profile derivation from the three sorted KMeans cluster
centers `off ≤ standby ≤ active`. -/

/-- Profile derivation of `train_appliance_models`: given the sorted cluster
centers, compute phantom power (with the implausibility fallback) and the
active threshold (floored at 5), both rounded to 2 decimals for storage. -/
def derive_profile (off standby active : ℚ) (alwaysOn : Bool) : ApplianceProfile :=
  let phantom0 := standby - off
  let phantom := if phantom0 < 0 ∨ phantom0 > 50 then max 1 (off * 0.5) else phantom0
  let thresh0 := (standby + active) / 2
  let thresh := if thresh0 < 5 then 5 else thresh0
  { phantom_power_watts := roundTo 2 phantom
    active_threshold_watts := roundTo 2 thresh
    always_on := alwaysOn }

/-- C8 counterexample: at the sorted centers `(0, 10, 10)` the derived
profile has `active_threshold_watts = phantom_power_watts = 10`, so the
strict inequality claimed does not hold. -/
theorem profile_threshold_strict_cex :
    (0 : ℚ) ≤ 10 ∧ (10 : ℚ) ≤ 10 ∧
    (derive_profile 0 10 10 false).phantom_power_watts = 10 ∧
    (derive_profile 0 10 10 false).active_threshold_watts = 10 ∧
    ¬((derive_profile 0 10 10 false).active_threshold_watts >
      (derive_profile 0 10 10 false).phantom_power_watts) := by
  have h1 : (derive_profile 0 10 10 false).phantom_power_watts = 10 := by
    simp only [derive_profile]
    norm_num [roundTo]
  have h2 : (derive_profile 0 10 10 false).active_threshold_watts = 10 := by
    simp only [derive_profile]
    norm_num [roundTo]
  refine ⟨by norm_num, by norm_num, h1, h2, ?_⟩
  rw [h1, h2]
  exact lt_irrefl 10

/-- C8 amended: for nonnegative sorted cluster centers
`0 ≤ off ≤ standby ≤ active`, the stored profile satisfies
`active_threshold_watts ≥ phantom_power_watts` (non-strict: equality is
reached both at degenerate centers such as `(0, 10, 10)` and through the
2-decimal rounding). -/
theorem profile_threshold_ge_phantom (off standby active : ℚ) (alwaysOn : Bool)
    (h0 : 0 ≤ off) (h1 : off ≤ standby) (h2 : standby ≤ active) :
    (derive_profile off standby active alwaysOn).phantom_power_watts ≤
      (derive_profile off standby active alwaysOn).active_threshold_watts := by
  have key : (if standby - off < 0 ∨ standby - off > 50 then max 1 (off * 0.5)
        else standby - off) ≤
      (if (standby + active) / 2 < 5 then 5 else (standby + active) / 2) := by
    split_ifs with hfall hthr hthr
    · apply max_le
      · norm_num
      · linarith
    · apply max_le
      · linarith
      · linarith
    · linarith
    · linarith
  simp only [derive_profile]
  exact roundTo_mono 2 key

/-- C8 witness for the amended theorem, at the centers `(3, 4, 100)`
(fallback branch is not taken; threshold is `52`, phantom `1`). -/
theorem profile_threshold_ge_phantom_witness :
    (derive_profile 3 4 100 true).phantom_power_watts ≤
      (derive_profile 3 4 100 true).active_threshold_watts :=
  profile_threshold_ge_phantom 3 4 100 true (by norm_num) (by norm_num) (by norm_num)

/-! ## Hybrid usage-factor estimator (`logic_stats.py`, `get_hybrid_usage_factor`)

The estimator reads three tables: the process-wide cached empirical patterns
(`_cached_ml_patterns`, mapping label to `ml_factor`), the static climate
table and the static typical-hours table.  The general version takes all
three as parameters; the program's version instantiates the two static
tables with the source constants. -/

def lookupQ (tbl : List (String × ℚ)) (key : String) : Option ℚ :=
  (tbl.find? fun e => e.1 == key).map Prod.snd

/-- `CLIMATE_ADJUSTMENTS[...]['malaysia_factor']` from `logic_stats.py`. -/
def CLIMATE_ADJUSTMENTS : List (String × ℚ) :=
  [("Air Conditioner", 0.35), ("Ceiling Fan", 0.50), ("Fridge", 0.95), ("Refrigerator", 0.95)]

/-- `TYPICAL_USAGE_HOURS` from `logic_stats.py`. -/
def TYPICAL_USAGE_HOURS : List (String × ℚ) :=
  [("Air Conditioner", 8.0), ("Ceiling Fan", 12.0), ("Television", 6.0),
   ("Computer/PC", 6.0), ("Fridge", 24.0), ("Refrigerator", 24.0),
   ("Washing Machine", 1.0), ("Microwave", 0.5), ("LED Lights", 6.0),
   ("Water Heater", 2.0), ("Rice Cooker", 1.0)]

/-- `ml_pattern.get('ml_factor', 0.2)`. -/
def mlFactorOf (mlPatterns : List (String × ℚ)) (appType : String) : ℚ :=
  (lookupQ mlPatterns appType).getD 0.2

/-- `typical_hours / 24.0` with `TYPICAL_USAGE_HOURS.get(app_type, 4.0)`. -/
def physicsFactorOf (typicalTbl : List (String × ℚ)) (appType : String) : ℚ :=
  ((lookupQ typicalTbl appType).getD 4.0) / 24

/-- `max(0.01, min(final_factor, 1.0))`. -/
def clampUnit (q : ℚ) : ℚ := max 0.01 (min q 1)

structure UsageFactorResult where
  final_factor : ℚ
  ml_factor : ℚ
  climate_factor : Option ℚ
  physics_factor : ℚ
  source : String
  usage_hours_day : ℚ
deriving DecidableEq, Repr

/-- `get_hybrid_usage_factor`, generalised over the three tables it reads. -/
def get_hybrid_usage_factor_gen (mlPatterns climateTbl typicalTbl : List (String × ℚ))
    (appType : String) : UsageFactorResult :=
  let ml_factor := mlFactorOf mlPatterns appType
  let climate_factor := lookupQ climateTbl appType
  let physics_factor := physicsFactorOf typicalTbl appType
  let blended : ℚ × String :=
    match climate_factor with
    | some c => (c * 0.6 + ml_factor * 0.2 + physics_factor * 0.2, "climate_adjusted")
    | none =>
      if ml_factor > 0.01 then (ml_factor * 0.7 + physics_factor * 0.3, "ml_dominant")
      else (physics_factor, "physics_only")
  let final_factor := clampUnit blended.1
  { final_factor := roundTo 4 final_factor
    ml_factor := roundTo 4 ml_factor
    climate_factor := climate_factor
    physics_factor := roundTo 4 physics_factor
    source := blended.2
    usage_hours_day := roundTo 1 (final_factor * 24) }

/-- `get_hybrid_usage_factor` as the program runs it: the climate and
typical-hours tables are the source constants. -/
def get_hybrid_usage_factor (mlPatterns : List (String × ℚ)) (appType : String) :
    UsageFactorResult :=
  get_hybrid_usage_factor_gen mlPatterns CLIMATE_ADJUSTMENTS TYPICAL_USAGE_HOURS appType

/-- C3: the estimator applies the first matching rule of the fixed priority
order — climate entry present: `0.6·climate + 0.2·ml + 0.2·physics`, tag
`climate_adjusted`; else `ml_factor > 0.01`: `0.7·ml + 0.3·physics`, tag
`ml_dominant`; else the physics factor (typical hours over 24, default 4.0 h)
with tag `physics_only` — and the result is clamped to `[0.01, 1]` (then
rounded to 4 decimals). -/
theorem hybrid_blending_tiers (mlPatterns climateTbl typicalTbl : List (String × ℚ))
    (appType : String) :
    (∀ c : ℚ, lookupQ climateTbl appType = some c →
      (get_hybrid_usage_factor_gen mlPatterns climateTbl typicalTbl appType).source =
        "climate_adjusted" ∧
      (get_hybrid_usage_factor_gen mlPatterns climateTbl typicalTbl appType).final_factor =
        roundTo 4 (clampUnit (c * 0.6 + mlFactorOf mlPatterns appType * 0.2 +
          physicsFactorOf typicalTbl appType * 0.2))) ∧
    (lookupQ climateTbl appType = none → mlFactorOf mlPatterns appType > 0.01 →
      (get_hybrid_usage_factor_gen mlPatterns climateTbl typicalTbl appType).source =
        "ml_dominant" ∧
      (get_hybrid_usage_factor_gen mlPatterns climateTbl typicalTbl appType).final_factor =
        roundTo 4 (clampUnit (mlFactorOf mlPatterns appType * 0.7 +
          physicsFactorOf typicalTbl appType * 0.3))) ∧
    (lookupQ climateTbl appType = none → ¬(mlFactorOf mlPatterns appType > 0.01) →
      (get_hybrid_usage_factor_gen mlPatterns climateTbl typicalTbl appType).source =
        "physics_only" ∧
      (get_hybrid_usage_factor_gen mlPatterns climateTbl typicalTbl appType).final_factor =
        roundTo 4 (clampUnit (physicsFactorOf typicalTbl appType))) := by
  refine ⟨?_, ?_, ?_⟩
  · intro c hc
    rw [get_hybrid_usage_factor_gen]
    simp only [hc]
    exact ⟨trivial, trivial⟩
  · intro hc hml
    rw [get_hybrid_usage_factor_gen]
    simp only [hc, if_pos hml]
    exact ⟨trivial, trivial⟩
  · intro hc hml
    rw [get_hybrid_usage_factor_gen]
    simp only [hc, if_neg hml]
    exact ⟨trivial, trivial⟩

/-- C4: for every appliance type and every content of the three tables, the
returned `final_factor` (after clamping and 4-decimal rounding) lies in
`[0.01, 1]`. -/
theorem hybrid_final_factor_clamped (mlPatterns climateTbl typicalTbl : List (String × ℚ))
    (appType : String) :
    0.01 ≤ (get_hybrid_usage_factor_gen mlPatterns climateTbl typicalTbl
        appType).final_factor ∧
      (get_hybrid_usage_factor_gen mlPatterns climateTbl typicalTbl
        appType).final_factor ≤ 1 := by
  have hlow : ∀ q : ℚ, (0.01 : ℚ) ≤ clampUnit q := fun q => le_max_left _ _
  have hhigh : ∀ q : ℚ, clampUnit q ≤ 1 := by
    intro q
    apply max_le
    · norm_num
    · exact min_le_right _ _
  have hr1 : roundTo 4 (0.01 : ℚ) = 0.01 := by norm_num [roundTo]
  have hr2 : roundTo 4 (1 : ℚ) = 1 := by norm_num [roundTo]
  have hfin : (get_hybrid_usage_factor_gen mlPatterns climateTbl typicalTbl
      appType).final_factor = roundTo 4 (clampUnit
        ((match lookupQ climateTbl appType with
          | some c => (c * 0.6 + mlFactorOf mlPatterns appType * 0.2 +
              physicsFactorOf typicalTbl appType * 0.2, "climate_adjusted")
          | none =>
            if mlFactorOf mlPatterns appType > 0.01 then
              (mlFactorOf mlPatterns appType * 0.7 +
                physicsFactorOf typicalTbl appType * 0.3, "ml_dominant")
            else (physicsFactorOf typicalTbl appType, "physics_only")) : ℚ × String).1) := by
    rw [get_hybrid_usage_factor_gen]
  rw [hfin]
  constructor
  · rw [← hr1]
    exact roundTo_mono 4 (hlow _)
  · rw [← hr2]
    exact roundTo_mono 4 (hhigh _)

/-! ## Disaggregation engine (`logic_stats.py`, `disaggregate_energy`) -/

/-- One owned appliance: `type` (or `name`), `quantity` (default 1),
`rated_watts` (or `watt`, default 0), already resolved to plain fields. -/
structure Appliance where
  type : String
  quantity : ℚ
  rated_watts : ℚ
deriving DecidableEq, Repr

structure BreakdownEntry where
  type : String
  quantity : ℚ
  rated_watts : ℚ
  usage_hours_per_day : ℚ
  share_percent : ℚ
  estimated_kwh : ℚ
  estimated_cost_rm : ℚ
  calculation_method : String
deriving DecidableEq, Repr

structure DisaggSummary where
  top_consumer : Option String
  top_consumer_percent : ℚ
  appliance_count : ℕ
deriving DecidableEq, Repr

structure DisaggResult where
  total_kwh : ℚ
  breakdown : List BreakdownEntry
  summary : DisaggSummary
deriving DecidableEq, Repr

/-- `effective_power = rated_watts * quantity * usage_factor`. -/
def effectivePower (mlPatterns : List (String × ℚ)) (a : Appliance) : ℚ :=
  a.rated_watts * a.quantity * (get_hybrid_usage_factor mlPatterns a.type).final_factor

/-- `total_weighted_power` before the floor-at-1 guard. -/
def totalWeightedPower (mlPatterns : List (String × ℚ)) (apps : List Appliance) : ℚ :=
  (apps.map (effectivePower mlPatterns)).sum

/-- One entry of the result list, given the (possibly floored) total weighted
power `twp`. -/
def mkEntry (mlPatterns : List (String × ℚ)) (totalKwh twp : ℚ) (a : Appliance) :
    BreakdownEntry :=
  let hybrid := get_hybrid_usage_factor mlPatterns a.type
  let sharePercent := effectivePower mlPatterns a / twp * 100
  let estimatedKwh := totalKwh * (sharePercent / 100)
  { type := a.type
    quantity := a.quantity
    rated_watts := a.rated_watts
    usage_hours_per_day := hybrid.usage_hours_day
    share_percent := roundTo 1 sharePercent
    estimated_kwh := roundTo 2 estimatedKwh
    estimated_cost_rm := roundTo 2 (estimatedKwh * 0.218)
    calculation_method := hybrid.source }

/-- `disaggregate_energy` from `logic_stats.py`: per-appliance shares of the
(floored) total weighted power, apportioned over `total_kwh`, sorted
descending by estimated kWh (Python's stable `sort(reverse=True)`). -/
def disaggregate_energy (mlPatterns : List (String × ℚ)) (totalKwh : ℚ)
    (apps : List Appliance) : DisaggResult :=
  let twp0 := totalWeightedPower mlPatterns apps
  let twp := if twp0 = 0 then 1 else twp0
  let entries := apps.map (mkEntry mlPatterns totalKwh twp)
  let sorted := entries.mergeSort fun x y => decide (y.estimated_kwh ≤ x.estimated_kwh)
  { total_kwh := totalKwh
    breakdown := sorted
    summary :=
      { top_consumer := sorted.head?.map (fun e => e.type)
        top_consumer_percent := (sorted.head?.map (fun e => e.share_percent)).getD 0
        appliance_count := sorted.length } }

/-- The comparison the engine sorts with. -/
def descByKwh (x y : BreakdownEntry) : Bool := decide (y.estimated_kwh ≤ x.estimated_kwh)

theorem disaggregate_breakdown_eq (mlPatterns : List (String × ℚ)) (totalKwh : ℚ)
    (apps : List Appliance) :
    (disaggregate_energy mlPatterns totalKwh apps).breakdown =
      (apps.map (mkEntry mlPatterns totalKwh
        (if totalWeightedPower mlPatterns apps = 0 then 1
         else totalWeightedPower mlPatterns apps))).mergeSort descByKwh := rfl

theorem disaggregate_summary_eq (mlPatterns : List (String × ℚ)) (totalKwh : ℚ)
    (apps : List Appliance) :
    (disaggregate_energy mlPatterns totalKwh apps).summary =
      { top_consumer :=
          ((disaggregate_energy mlPatterns totalKwh apps).breakdown.head?).map
            (fun e => e.type)
        top_consumer_percent :=
          (((disaggregate_energy mlPatterns totalKwh apps).breakdown.head?).map
            (fun e => e.share_percent)).getD 0
        appliance_count :=
          (disaggregate_energy mlPatterns totalKwh apps).breakdown.length } := rfl

theorem mergeSort_desc_sorted (l : List BreakdownEntry) :
    (l.mergeSort descByKwh).Pairwise (fun x y => y.estimated_kwh ≤ x.estimated_kwh) := by
  have htrans : ∀ a b c : BreakdownEntry,
      descByKwh a b = true → descByKwh b c = true → descByKwh a c = true := by
    intro a b c hab hbc
    simp only [descByKwh, decide_eq_true_eq] at *
    exact le_trans hbc hab
  have htotal : ∀ a b : BreakdownEntry, (descByKwh a b || descByKwh b a) = true := by
    intro a b
    simp only [descByKwh]
    rcases le_total a.estimated_kwh b.estimated_kwh with h | h <;> simp [h]
  have hp := List.sorted_mergeSort htrans htotal l
  exact hp.imp fun h => of_decide_eq_true h

/-- C9: the breakdown is sorted descending by `estimated_kwh`, and on a
non-empty appliance list the summary's top consumer is the first entry's
type with its share percent. -/
theorem disaggregate_ranking (mlPatterns : List (String × ℚ)) (totalKwh : ℚ)
    (apps : List Appliance) :
    ((disaggregate_energy mlPatterns totalKwh apps).breakdown).Pairwise
      (fun x y => y.estimated_kwh ≤ x.estimated_kwh) ∧
    (apps ≠ [] → ∃ e rest,
      (disaggregate_energy mlPatterns totalKwh apps).breakdown = e :: rest ∧
      (disaggregate_energy mlPatterns totalKwh apps).summary.top_consumer = some e.type ∧
      (disaggregate_energy mlPatterns totalKwh apps).summary.top_consumer_percent =
        e.share_percent) := by
  constructor
  · rw [disaggregate_breakdown_eq]
    exact mergeSort_desc_sorted _
  · intro hne
    cases hsort : (disaggregate_energy mlPatterns totalKwh apps).breakdown with
    | nil =>
      exfalso
      rw [disaggregate_breakdown_eq] at hsort
      have hperm := List.mergeSort_perm (apps.map (mkEntry mlPatterns totalKwh
        (if totalWeightedPower mlPatterns apps = 0 then 1
         else totalWeightedPower mlPatterns apps))) descByKwh
      rw [hsort] at hperm
      have hmap := hperm.symm.eq_nil
      rw [List.map_eq_nil_iff] at hmap
      exact hne hmap
    | cons e rest =>
      refine ⟨e, rest, rfl, ?_, ?_⟩
      · rw [disaggregate_summary_eq]
        simp [hsort]
      · rw [disaggregate_summary_eq]
        simp [hsort]

theorem abs_sum_map_roundTo_sub (n : ℕ) (l : List ℚ) :
    |(l.map (roundTo n)).sum - l.sum| ≤ l.length * (1 / (2 * (10 : ℚ) ^ n)) := by
  induction l with
  | nil => simp
  | cons x xs ih =>
    simp only [List.map_cons, List.sum_cons, List.length_cons]
    push_cast
    have h1 := abs_roundTo_sub n x
    calc |roundTo n x + (xs.map (roundTo n)).sum - (x + xs.sum)|
        = |(roundTo n x - x) + ((xs.map (roundTo n)).sum - xs.sum)| := by
          congr 1
          ring
      _ ≤ |roundTo n x - x| + |(xs.map (roundTo n)).sum - xs.sum| := abs_add _ _
      _ ≤ 1 / (2 * (10 : ℚ) ^ n) + xs.length * (1 / (2 * (10 : ℚ) ^ n)) := add_le_add h1 ih
      _ = (xs.length + 1) * (1 / (2 * (10 : ℚ) ^ n)) := by ring

/-- The full-precision per-appliance estimated kWh, with the unfloored
total weighted power. -/
def kwhOf (mlPatterns : List (String × ℚ)) (totalKwh twp : ℚ) (a : Appliance) : ℚ :=
  totalKwh * (effectivePower mlPatterns a / twp * 100 / 100)

/-- The full-precision per-appliance share percent. -/
def shareOf (mlPatterns : List (String × ℚ)) (twp : ℚ) (a : Appliance) : ℚ :=
  effectivePower mlPatterns a / twp * 100

/-- C2 amended: whenever the total weighted power is non-zero (the floor-at-1
guard is not taken), the rounded breakdown sums conserve the inputs up to
rounding tolerance: the estimated kWh values (2 decimals) sum to `total_kwh`
within `n/200` and the share percents (1 decimal) sum to `100` within `n/20`,
for `n` appliances; the pre-rounding sums are exact. -/
theorem disaggregate_conservation_of_positive_weight (mlPatterns : List (String × ℚ))
    (totalKwh : ℚ) (apps : List Appliance)
    (hw : totalWeightedPower mlPatterns apps ≠ 0) :
    |((disaggregate_energy mlPatterns totalKwh apps).breakdown.map
        (fun e => e.estimated_kwh)).sum - totalKwh| ≤ (apps.length : ℚ) * (1 / 200) ∧
    |((disaggregate_energy mlPatterns totalKwh apps).breakdown.map
        (fun e => e.share_percent)).sum - 100| ≤ (apps.length : ℚ) * (1 / 20) := by
  set twp0 := totalWeightedPower mlPatterns apps with htwp0
  have hguard : (if twp0 = 0 then 1 else twp0) = twp0 := if_neg hw
  -- the breakdown is a permutation of the unsorted entry list
  have hperm : ((disaggregate_energy mlPatterns totalKwh apps).breakdown).Perm
      (apps.map (mkEntry mlPatterns totalKwh twp0)) := by
    rw [disaggregate_breakdown_eq, ← htwp0, hguard]
    exact List.mergeSort_perm _ _
  -- kWh side
  have hkwh_map : ((apps.map (mkEntry mlPatterns totalKwh twp0)).map
      (fun e => e.estimated_kwh)) = (apps.map (kwhOf mlPatterns totalKwh twp0)).map
        (roundTo 2) := by
    simp only [List.map_map]
    rfl
  have hkwh_sum_exact : (apps.map (kwhOf mlPatterns totalKwh twp0)).sum = totalKwh := by
    have hpt : ∀ a : Appliance, kwhOf mlPatterns totalKwh twp0 a =
        totalKwh / twp0 * effectivePower mlPatterns a := by
      intro a
      rw [kwhOf]
      field_simp
      ring
    rw [List.map_congr_left fun a _ => hpt a]
    rw [List.sum_map_mul_left]
    have hsum : (List.map (effectivePower mlPatterns) apps).sum = twp0 := rfl
    rw [hsum]
    field_simp
  -- share side
  have hshare_map : ((apps.map (mkEntry mlPatterns totalKwh twp0)).map
      (fun e => e.share_percent)) = (apps.map (shareOf mlPatterns twp0)).map
        (roundTo 1) := by
    simp only [List.map_map]
    rfl
  have hshare_sum_exact : (apps.map (shareOf mlPatterns twp0)).sum = 100 := by
    have hpt : ∀ a : Appliance, shareOf mlPatterns twp0 a =
        100 / twp0 * effectivePower mlPatterns a := by
      intro a
      rw [shareOf]
      field_simp
      ring
    rw [List.map_congr_left fun a _ => hpt a]
    rw [List.sum_map_mul_left]
    have hsum : (List.map (effectivePower mlPatterns) apps).sum = twp0 := rfl
    rw [hsum]
    field_simp
  constructor
  · have hs := (hperm.map (fun e => e.estimated_kwh)).sum_eq
    rw [hs, hkwh_map]
    have hb := abs_sum_map_roundTo_sub 2 (apps.map (kwhOf mlPatterns totalKwh twp0))
    rw [hkwh_sum_exact, List.length_map] at hb
    calc |((apps.map (kwhOf mlPatterns totalKwh twp0)).map (roundTo 2)).sum - totalKwh|
        ≤ apps.length * (1 / (2 * (10 : ℚ) ^ 2)) := hb
      _ = (apps.length : ℚ) * (1 / 200) := by norm_num
  · have hs := (hperm.map (fun e => e.share_percent)).sum_eq
    rw [hs, hshare_map]
    have hb := abs_sum_map_roundTo_sub 1 (apps.map (shareOf mlPatterns twp0))
    rw [hshare_sum_exact, List.length_map] at hb
    calc |((apps.map (shareOf mlPatterns twp0)).map (roundTo 1)).sum - 100|
        ≤ apps.length * (1 / (2 * (10 : ℚ) ^ 1)) := hb
      _ = (apps.length : ℚ) * (1 / 20) := by norm_num

/-! ## Concrete sample inputs -/

def sampleStore : ProfileStore :=
  [("Television", { phantom_power_watts := 2, active_threshold_watts := 50, always_on := false }),
   ("Computer/PC", { phantom_power_watts := 5, active_threshold_watts := 60, always_on := false })]

def sampleInventory : List InventoryItem :=
  [{ type? := some "Television", name? := none },
   { type? := some "Computer/PC", name? := none }]

theorem sampleCands_eq :
    candidatePowers sampleStore sampleInventory =
      [("Television", 2), ("Computer/PC", 5)] := by
  simp only [candidatePowers, lookupProfile, appTypeOf, sampleStore, sampleInventory,
    List.filterMap, List.find?, String.reduceBEq, Option.getD, Option.map_some,
    Option.some.injEq]
  norm_num

theorem sampleCands_ne_nil : candidatePowers sampleStore sampleInventory ≠ [] := by
  rw [sampleCands_eq]
  simp

/-- C2 counterexample: one appliance with rated watts 0 and `total_kwh = 100`
make every share and every estimated kWh equal to 0, so neither sum is near
the claimed totals. -/
theorem disaggregate_conservation_cex :
    (disaggregate_energy [] 100
      [{ type := "Space Heater", quantity := 1, rated_watts := 0 }]).total_kwh = 100 ∧
    ((disaggregate_energy [] 100
      [{ type := "Space Heater", quantity := 1, rated_watts := 0 }]).breakdown.map
        (fun e => e.estimated_kwh)).sum = 0 ∧
    ((disaggregate_energy [] 100
      [{ type := "Space Heater", quantity := 1, rated_watts := 0 }]).breakdown.map
        (fun e => e.share_percent)).sum = 0 := by
  refine ⟨rfl, ?_, ?_⟩ <;>
    norm_num [disaggregate_energy, totalWeightedPower, effectivePower, mkEntry,
      List.mergeSort_singleton, roundTo]

/-- C1 witness: the sample store and inventory at a 7 W mains reading. -/
theorem detect_subset_search_optimal_witness :
    candidatePowers sampleStore sampleInventory ≠ [] ∧
    (∃ s : List (String × ℚ), s.Sublist (candidatePowers sampleStore sampleInventory) ∧
      s ≠ [] ∧
      (detect_phantom_sources sampleStore 7 sampleInventory).total_phantom_watts =
        roundTo 2 (comboSum s) ∧
      (detect_phantom_sources sampleStore 7 sampleInventory).error_margin =
        roundTo 2 |7 - comboSum s| ∧
      ∀ t : List (String × ℚ), t.Sublist (candidatePowers sampleStore sampleInventory) →
        t ≠ [] → |7 - comboSum s| ≤ |7 - comboSum t|) :=
  ⟨sampleCands_ne_nil,
    detect_subset_search_optimal sampleStore 7 sampleInventory sampleCands_ne_nil⟩

/-- C6 witness: the sample store and inventory at a 7 W mains reading. -/
theorem detect_tie_break_first_found_witness :
    candidatePowers sampleStore sampleInventory ≠ [] ∧
    (∃ d b pre post,
      searchBest 7 (allCombos (candidatePowers sampleStore sampleInventory)) = some (d, b) ∧
      (detect_phantom_sources sampleStore 7 sampleInventory).detected_appliances =
        b.map Prod.fst ∧
      d = |7 - comboSum b| ∧
      allCombos (candidatePowers sampleStore sampleInventory) = pre ++ b :: post ∧
      (∀ s ∈ pre, d < |7 - comboSum s|) ∧
      (∀ s ∈ post, d ≤ |7 - comboSum s|) ∧
      (∀ t : List (String × ℚ), t.Sublist (candidatePowers sampleStore sampleInventory) →
        t ≠ [] → |7 - comboSum t| = d → b.length ≤ t.length)) :=
  ⟨sampleCands_ne_nil,
    detect_tie_break_first_found sampleStore 7 sampleInventory sampleCands_ne_nil⟩

/-- C10 witness: the sample store and inventory at a 7 W mains reading. -/
theorem detect_nonempty_of_candidates_witness :
    candidatePowers sampleStore sampleInventory ≠ [] ∧
    (searchBest 7 (allCombos (candidatePowers sampleStore sampleInventory)) ≠ none ∧
    (detect_phantom_sources sampleStore 7 sampleInventory).detected_appliances ≠ [] ∧
    ∃ d b, searchBest 7 (allCombos (candidatePowers sampleStore sampleInventory)) =
        some (d, b) ∧
      0 < comboSum b ∧
      (detect_phantom_sources sampleStore 7 sampleInventory).total_phantom_watts =
        roundTo 2 (comboSum b)) :=
  ⟨sampleCands_ne_nil,
    detect_nonempty_of_candidates sampleStore 7 sampleInventory sampleCands_ne_nil⟩

def sampleAppliance : Appliance :=
  { type := "Space Heater", quantity := 1, rated_watts := 100 }

theorem sample_twp_ne_zero : totalWeightedPower [] [sampleAppliance] ≠ 0 := by
  simp [totalWeightedPower, effectivePower, get_hybrid_usage_factor,
    get_hybrid_usage_factor_gen, mlFactorOf, physicsFactorOf, lookupQ,
    CLIMATE_ADJUSTMENTS, TYPICAL_USAGE_HOURS, sampleAppliance, List.find?]
  norm_num [roundTo, clampUnit, min_def, max_def]

/-- C2 witness for the amended theorem: one 100 W appliance, 50 kWh total. -/
theorem disaggregate_conservation_witness :
    totalWeightedPower [] [sampleAppliance] ≠ 0 ∧
    (|((disaggregate_energy [] 50 [sampleAppliance]).breakdown.map
        (fun e => e.estimated_kwh)).sum - 50| ≤
      (([sampleAppliance] : List Appliance).length : ℚ) * (1 / 200) ∧
    |((disaggregate_energy [] 50 [sampleAppliance]).breakdown.map
        (fun e => e.share_percent)).sum - 100| ≤
      (([sampleAppliance] : List Appliance).length : ℚ) * (1 / 20)) :=
  ⟨sample_twp_ne_zero,
    disaggregate_conservation_of_positive_weight [] 50 [sampleAppliance] sample_twp_ne_zero⟩

end PowerPulse
